import Mathlib

/-!
Verification development for the MATDEV WhatsApp bot repository.

Shallow embedding of:
- the message processing queue (`src/lib/queue.js`),
- the permission manager (`PermissionManager` in `src/lib/permissions.js`),
- the plugin loader / command registry (`src/plugins/loader.js`),
- command parsing and the rate limiter (`src/lib/utils.js`),
- the command dispatch path (`MessageHandler` in `src/handlers/message.js`).

JavaScript `Map` objects are embedded as association lists with
insertion-order semantics (`Map.set` updates an existing key in place,
otherwise appends; `Map.get` returns the first — unique — binding).
JavaScript numbers are embedded as `Nat`/`Int` (all arithmetic in the
embedded code stays far below 2^53, where JS number arithmetic is exact).
-/

/-! JS `Map` primitives -/

/-- JS `Map.get k`: the binding for `k`, if any. -/
def mapGet {β : Type} (m : List (String × β)) (k : String) : Option β :=
  match m with
  | [] => none
  | (k0, v) :: rest => if k0 == k then some v else mapGet rest k

/-- JS `Map.set k v`: update the binding for `k` in place if present, else append. -/
def mapSet {β : Type} (m : List (String × β)) (k : String) (v : β) : List (String × β) :=
  match m with
  | [] => [(k, v)]
  | (k0, v0) :: rest => if k0 == k then (k0, v) :: rest else (k0, v0) :: mapSet rest k v

/-- JS `String.prototype.startsWith`, as a character-list prefix test. -/
def strStartsWith (s pre : String) : Bool :=
  pre.data.isPrefixOf s.data

/-- JS `String.prototype.toLowerCase`, mapped characterwise. -/
def strToLower (s : String) : String :=
  ⟨s.data.map Char.toLower⟩

/-! Message queue (`src/lib/queue.js`).

The queue state mirrors the fields of `MessageQueue` that the queue logic
reads or writes: `queue`, `processing`, `activeProcesses`, and the
`processed`/`failed`/`queued` statistics.  The handler invocation that
`processQueue` awaits is split into a `dequeue` step (the synchronous part
of `processQueue` up to the `await`) and a `success`/`fail` settling step
(the code after the `await`, respectively the `catch` block, together with
the `finally` block); the awaited item is held in `inFlight`.  The handler
itself is opaque: whether it settles successfully is chosen by the
environment. -/

/-- A queue item: `id`, `priority`, `timestamp`, `retries`, `maxRetries`.
The opaque `data`/`handler` fields are not modelled. -/
structure QueueItem where
  id : Nat
  priority : Int
  timestamp : Nat
  retries : Nat
  maxRetries : Nat
deriving DecidableEq, Repr

/-- The `queueItem` object literal built by `MessageQueue.add`:
fresh items start with `retries: 0` and `maxRetries: 3`. -/
def mkQueueItem (id : Nat) (priority : Int) (now : Nat) : QueueItem :=
  ⟨id, priority, now, 0, 3⟩

/-- Priority insertion in `MessageQueue.add`:
`findIndex(item => item.priority < priority)` then `splice`/`push`.
`List.findIdx` returns the length when no index matches, and inserting at
the length is exactly the `push` branch. -/
def insertByPriority (q : List QueueItem) (it : QueueItem) : List QueueItem :=
  let insertIndex := q.findIdx fun item => item.priority < it.priority
  q.take insertIndex ++ it :: q.drop insertIndex

/-- The `stats` object of `MessageQueue` (the parts the queue logic mutates). -/
structure QueueStats where
  processed : Nat
  failed : Nat
  queued : Nat
deriving DecidableEq, Repr

/-- The mutable state of a `MessageQueue`. -/
structure QueueState where
  queue : List QueueItem
  processing : Bool
  activeProcesses : Nat
  inFlight : Option QueueItem
  stats : QueueStats
deriving DecidableEq, Repr

/-- The state built by the `MessageQueue` constructor. -/
def initialQueueState : QueueState :=
  ⟨[], false, 0, none, ⟨0, 0, 0⟩⟩

/-- `MessageQueue.add`: reject when `queue.length >= MESSAGE_QUEUE_SIZE`
(returning `false` with the state untouched), otherwise insert by priority
and bump `stats.queued`.  `cap` is `config.MESSAGE_QUEUE_SIZE`. -/
def MessageQueue.add (cap : Nat) (σ : QueueState) (id : Nat) (priority : Int)
    (now : Nat) : Bool × QueueState :=
  if cap ≤ σ.queue.length then
    (false, σ)
  else
    (true,
      { σ with
        queue := insertByPriority σ.queue (mkQueueItem id priority now),
        stats := { σ.stats with queued := σ.stats.queued + 1 } })

/-- The retried item re-inserted by the `catch` block of `processQueue`:
`item.retries++; item.timestamp = Date.now()`. -/
def retryItem (it : QueueItem) (now : Nat) : QueueItem :=
  { it with retries := it.retries + 1, timestamp := now }

/-- The `catch` block (plus the `finally` block) of `processQueue` for a
failed handler: decrement `activeProcesses`; if `retries < maxRetries`,
re-insert the bumped item via `unshift` (the absolute front of the queue),
otherwise bump `stats.failed` and drop the item; clear `processing`. -/
def settleFailure (σ : QueueState) (it : QueueItem) (now : Nat) : QueueState :=
  if it.retries < it.maxRetries then
    { σ with
      activeProcesses := σ.activeProcesses - 1,
      queue := retryItem it now :: σ.queue,
      processing := false, inFlight := none }
  else
    { σ with
      activeProcesses := σ.activeProcesses - 1,
      stats := { σ.stats with failed := σ.stats.failed + 1 },
      processing := false, inFlight := none }

/-- The success path of `processQueue` (plus the `finally` block):
bump `stats.processed`, decrement `activeProcesses`, clear `processing`. -/
def settleSuccess (σ : QueueState) : QueueState :=
  { σ with
    activeProcesses := σ.activeProcesses - 1,
    stats := { σ.stats with processed := σ.stats.processed + 1 },
    processing := false, inFlight := none }

/-- One atomic step of the queue system, for `cap = MESSAGE_QUEUE_SIZE` and
`limit = MAX_CONCURRENT_MESSAGES`.  `add` may interleave arbitrarily with an
in-flight handler; `dequeue` is the synchronous part of `processQueue` up to
the `await` (guarded by the `processing` flag and the concurrency limit);
`success` and `fail` are the two ways the awaited handler can settle.
`pause`/`resume` are not modelled: no code in the repository calls them. -/
inductive QueueStep (cap limit : Nat) : QueueState → QueueState → Prop where
  | add (σ : QueueState) (id : Nat) (priority : Int) (now : Nat) :
      QueueStep cap limit σ (MessageQueue.add cap σ id priority now).2
  | dequeue (σ : QueueState) (it : QueueItem) (rest : List QueueItem)
      (hp : σ.processing = false) (hc : σ.activeProcesses < limit)
      (hq : σ.queue = it :: rest) :
      QueueStep cap limit σ
        { σ with queue := rest, processing := true,
                 activeProcesses := σ.activeProcesses + 1, inFlight := some it }
  | success (σ : QueueState) (it : QueueItem) (hf : σ.inFlight = some it) :
      QueueStep cap limit σ (settleSuccess σ)
  | fail (σ : QueueState) (it : QueueItem) (now : Nat) (hf : σ.inFlight = some it) :
      QueueStep cap limit σ (settleFailure σ it now)

/-- States reachable from the freshly constructed queue. -/
def QueueReachable (cap limit : Nat) : QueueState → Prop :=
  Relation.ReflTransGen (QueueStep cap limit) initialQueueState

/-- C3: submitting to a full queue returns `false` and leaves the entire
state (queue contents, counters, statistics) unchanged. -/
theorem add_full_rejects (cap : Nat) (σ : QueueState) (id : Nat) (priority : Int)
    (now : Nat) (h : cap ≤ σ.queue.length) :
    MessageQueue.add cap σ id priority now = (false, σ) := by
  simp [MessageQueue.add, h]

/-- Witness for C3 at a concrete full queue (capacity 2, two pending items). -/
theorem add_full_rejects_witness :
    2 ≤ (⟨[mkQueueItem 1 5 10, mkQueueItem 2 5 11], false, 0, none, ⟨0, 0, 2⟩⟩ :
          QueueState).queue.length ∧
    MessageQueue.add 2
        ⟨[mkQueueItem 1 5 10, mkQueueItem 2 5 11], false, 0, none, ⟨0, 0, 2⟩⟩ 3 10 12 =
      (false, ⟨[mkQueueItem 1 5 10, mkQueueItem 2 5 11], false, 0, none, ⟨0, 0, 2⟩⟩) :=
  ⟨by decide,
    add_full_rejects 2
      ⟨[mkQueueItem 1 5 10, mkQueueItem 2 5 11], false, 0, none, ⟨0, 0, 2⟩⟩
      3 10 12 (by decide)⟩

/-! Queue invariants -/

/-- Inductive invariant of the queue system: the `processing` flag tracks
whether a handler is in flight, at most that one handler is active, and
every live item carries `maxRetries = 3` with `retries` within bound. -/
def QueueInv (σ : QueueState) : Prop :=
  σ.processing = σ.inFlight.isSome ∧
  σ.activeProcesses = (if σ.inFlight.isSome then 1 else 0) ∧
  (∀ it ∈ σ.queue, it.maxRetries = 3 ∧ it.retries ≤ it.maxRetries) ∧
  (∀ it, σ.inFlight = some it → it.maxRetries = 3 ∧ it.retries ≤ it.maxRetries)

theorem mem_insertByPriority (q : List QueueItem) (it x : QueueItem) :
    x ∈ insertByPriority q it ↔ x = it ∨ x ∈ q := by
  simp only [insertByPriority]
  constructor
  · intro h
    rcases List.mem_append.1 h with h1 | h2
    · exact Or.inr (List.mem_of_mem_take h1)
    · rcases List.mem_cons.1 h2 with h3 | h4
      · exact Or.inl h3
      · exact Or.inr (List.mem_of_mem_drop h4)
  · intro h
    rcases h with rfl | hq
    · exact List.mem_append.2 (Or.inr (List.mem_cons_self _ _))
    · rw [← List.take_append_drop (q.findIdx fun item => item.priority < it.priority) q]
        at hq
      rcases List.mem_append.1 hq with h1 | h2
      · exact List.mem_append.2 (Or.inl h1)
      · exact List.mem_append.2 (Or.inr (List.mem_cons_of_mem _ h2))

theorem queueInv_step {cap limit : Nat} {σ σ' : QueueState}
    (h : QueueStep cap limit σ σ') (hinv : QueueInv σ) : QueueInv σ' := by
  obtain ⟨h1, h2, h3, h4⟩ := hinv
  cases h with
  | add id priority now =>
    by_cases hc : cap ≤ σ.queue.length
    · simpa [MessageQueue.add, hc] using ⟨h1, h2, h3, h4⟩
    · refine ⟨by simpa [MessageQueue.add, hc] using h1,
        by simpa [MessageQueue.add, hc] using h2, ?_,
        by simpa [MessageQueue.add, hc] using h4⟩
      intro it hit
      simp only [MessageQueue.add, hc, if_neg] at hit
      rcases (mem_insertByPriority _ _ _).1 hit with rfl | hmem
      · exact ⟨rfl, by simp [mkQueueItem]⟩
      · exact h3 it hmem
  | dequeue it rest hp hc hq =>
    have hf : σ.inFlight = none := by
      cases hfl : σ.inFlight with
      | none => rfl
      | some x => rw [hfl] at h1; rw [hp] at h1; simp at h1
    refine ⟨by simp, by simp [hf] at h2; simp [h2], ?_, ?_⟩
    · intro x hx
      exact h3 x (by rw [hq]; exact List.mem_cons_of_mem _ hx)
    · intro x hx
      have hmem : x ∈ σ.queue := by
        rw [hq]
        simp only [Option.some.injEq] at hx
        rw [← hx]
        exact List.mem_cons_self _ _
      exact h3 x hmem
  | success it hf =>
    have ha : σ.activeProcesses = 1 := by rw [h2, hf]; simp
    refine ⟨by simp [settleSuccess], by simp [settleSuccess, ha], ?_,
      by simp [settleSuccess]⟩
    intro x hx
    exact h3 x hx
  | fail it now hf =>
    have hit := h4 it hf
    have ha : σ.activeProcesses = 1 := by rw [h2, hf]; simp
    by_cases hr : it.retries < it.maxRetries
    · refine ⟨by simp [settleFailure, hr], by simp [settleFailure, hr, ha], ?_,
        by simp [settleFailure, hr]⟩
      intro x hx
      simp only [settleFailure, hr, if_pos] at hx
      rcases List.mem_cons.1 hx with rfl | hmem
      · exact ⟨by simp [retryItem, hit.1], by simp [retryItem]; omega⟩
      · exact h3 x hmem
    · refine ⟨by simp [settleFailure, hr], by simp [settleFailure, hr, ha], ?_,
        by simp [settleFailure, hr]⟩
      intro x hx
      simp only [settleFailure, hr, if_neg, not_false_iff] at hx
      exact h3 x hx

theorem queueInv_of_reachable {cap limit : Nat} {σ : QueueState}
    (h : QueueReachable cap limit σ) : QueueInv σ := by
  induction h with
  | refl => exact ⟨rfl, rfl, by simp [initialQueueState], by simp [initialQueueState]⟩
  | tail _ hstep ih => exact queueInv_step hstep ih

/-- C10: in every reachable queue state, at most one handler is active:
the `processing` flag is set before the handler is awaited and cleared only
after it settles, so `activeProcesses` never exceeds 1, whatever the
configured concurrency limit. -/
theorem activeProcesses_le_one (cap limit : Nat) (σ : QueueState)
    (h : QueueReachable cap limit σ) : σ.activeProcesses ≤ 1 := by
  have h2 := (queueInv_of_reachable h).2.1
  rw [h2]
  by_cases hs : σ.inFlight.isSome <;> simp [hs]

/-- Witness for C10 at a concrete reachable state with a handler in flight
(capacity 1000, concurrency limit 50, one item added and dequeued). -/
theorem activeProcesses_le_one_witness :
    QueueReachable 1000 50 ⟨[], true, 1, some ⟨1, 5, 100, 0, 3⟩, ⟨0, 0, 1⟩⟩ ∧
    (⟨[], true, 1, some ⟨1, 5, 100, 0, 3⟩, ⟨0, 0, 1⟩⟩ :
        QueueState).activeProcesses ≤ 1 := by
  have htr : QueueReachable 1000 50 ⟨[], true, 1, some ⟨1, 5, 100, 0, 3⟩, ⟨0, 0, 1⟩⟩ :=
    Relation.ReflTransGen.tail
      (Relation.ReflTransGen.single (QueueStep.add initialQueueState 1 5 100))
      (QueueStep.dequeue ⟨[⟨1, 5, 100, 0, 3⟩], false, 0, none, ⟨0, 0, 1⟩⟩
        ⟨1, 5, 100, 0, 3⟩ [] rfl (by decide) rfl)
  exact ⟨htr, activeProcesses_le_one 1000 50 _ htr⟩

/-- C2: a failed handler is retried at most `maxRetries = 3` times.  In every
reachable state every live item has `maxRetries = 3` and `retries` within
that bound (so a retry re-insertion, which requires `retries < maxRetries`
and increments `retries`, can happen at most 3 times per item); when a
handler fails with its retries exhausted, the failure settling increments
`stats.failed` by exactly one, does not re-queue the item, and clears the
in-flight slot; when retries are not exhausted, it re-queues the bumped item
without touching the failure counter.  Settling is a total function on
states: the caught error is never re-raised. -/
theorem failed_handler_retry_policy (cap limit : Nat) (σ : QueueState)
    (h : QueueReachable cap limit σ) :
    (∀ it ∈ σ.queue, it.maxRetries = 3 ∧ it.retries ≤ it.maxRetries) ∧
    (∀ it, σ.inFlight = some it → it.maxRetries = 3 ∧ it.retries ≤ it.maxRetries) ∧
    (∀ it now, σ.inFlight = some it → it.maxRetries ≤ it.retries →
      (settleFailure σ it now).stats.failed = σ.stats.failed + 1 ∧
      (settleFailure σ it now).queue = σ.queue ∧
      (settleFailure σ it now).inFlight = none) ∧
    (∀ it now, σ.inFlight = some it → it.retries < it.maxRetries →
      (settleFailure σ it now).queue = retryItem it now :: σ.queue ∧
      (settleFailure σ it now).stats.failed = σ.stats.failed ∧
      (retryItem it now).retries = it.retries + 1) := by
  have hinv := queueInv_of_reachable h
  refine ⟨hinv.2.2.1, hinv.2.2.2, ?_, ?_⟩
  · intro it now _ hr
    have hr' : ¬ it.retries < it.maxRetries := Nat.not_lt.2 hr
    simp [settleFailure, hr']
  · intro it now _ hr
    simp [settleFailure, hr, retryItem]

/-- Witness for C2: a concrete reachable state whose in-flight item has
exhausted its retries (three failures already happened), where the failure
settling bumps the `failed` counter once and drops the item. -/
theorem failed_handler_retry_policy_witness :
    QueueReachable 1000 50 ⟨[], true, 1, some ⟨1, 5, 400, 3, 3⟩, ⟨0, 0, 1⟩⟩ ∧
    (settleFailure ⟨[], true, 1, some ⟨1, 5, 400, 3, 3⟩, ⟨0, 0, 1⟩⟩
        ⟨1, 5, 400, 3, 3⟩ 500).stats.failed =
      (⟨[], true, 1, some ⟨1, 5, 400, 3, 3⟩, ⟨0, 0, 1⟩⟩ :
        QueueState).stats.failed + 1 ∧
    (settleFailure ⟨[], true, 1, some ⟨1, 5, 400, 3, 3⟩, ⟨0, 0, 1⟩⟩
        ⟨1, 5, 400, 3, 3⟩ 500).queue =
      (⟨[], true, 1, some ⟨1, 5, 400, 3, 3⟩, ⟨0, 0, 1⟩⟩ : QueueState).queue := by
  have t1 : QueueReachable 1000 50 ⟨[⟨1, 5, 100, 0, 3⟩], false, 0, none, ⟨0, 0, 1⟩⟩ :=
    Relation.ReflTransGen.single (QueueStep.add initialQueueState 1 5 100)
  have t2 : QueueReachable 1000 50 ⟨[], true, 1, some ⟨1, 5, 100, 0, 3⟩, ⟨0, 0, 1⟩⟩ :=
    t1.tail (QueueStep.dequeue ⟨[⟨1, 5, 100, 0, 3⟩], false, 0, none, ⟨0, 0, 1⟩⟩
      ⟨1, 5, 100, 0, 3⟩ [] rfl (by decide) rfl)
  have t3 : QueueReachable 1000 50 ⟨[⟨1, 5, 200, 1, 3⟩], false, 0, none, ⟨0, 0, 1⟩⟩ :=
    t2.tail (QueueStep.fail ⟨[], true, 1, some ⟨1, 5, 100, 0, 3⟩, ⟨0, 0, 1⟩⟩
      ⟨1, 5, 100, 0, 3⟩ 200 rfl)
  have t4 : QueueReachable 1000 50 ⟨[], true, 1, some ⟨1, 5, 200, 1, 3⟩, ⟨0, 0, 1⟩⟩ :=
    t3.tail (QueueStep.dequeue ⟨[⟨1, 5, 200, 1, 3⟩], false, 0, none, ⟨0, 0, 1⟩⟩
      ⟨1, 5, 200, 1, 3⟩ [] rfl (by decide) rfl)
  have t5 : QueueReachable 1000 50 ⟨[⟨1, 5, 300, 2, 3⟩], false, 0, none, ⟨0, 0, 1⟩⟩ :=
    t4.tail (QueueStep.fail ⟨[], true, 1, some ⟨1, 5, 200, 1, 3⟩, ⟨0, 0, 1⟩⟩
      ⟨1, 5, 200, 1, 3⟩ 300 rfl)
  have t6 : QueueReachable 1000 50 ⟨[], true, 1, some ⟨1, 5, 300, 2, 3⟩, ⟨0, 0, 1⟩⟩ :=
    t5.tail (QueueStep.dequeue ⟨[⟨1, 5, 300, 2, 3⟩], false, 0, none, ⟨0, 0, 1⟩⟩
      ⟨1, 5, 300, 2, 3⟩ [] rfl (by decide) rfl)
  have t7 : QueueReachable 1000 50 ⟨[⟨1, 5, 400, 3, 3⟩], false, 0, none, ⟨0, 0, 1⟩⟩ :=
    t6.tail (QueueStep.fail ⟨[], true, 1, some ⟨1, 5, 300, 2, 3⟩, ⟨0, 0, 1⟩⟩
      ⟨1, 5, 300, 2, 3⟩ 400 rfl)
  have t8 : QueueReachable 1000 50 ⟨[], true, 1, some ⟨1, 5, 400, 3, 3⟩, ⟨0, 0, 1⟩⟩ :=
    t7.tail (QueueStep.dequeue ⟨[⟨1, 5, 400, 3, 3⟩], false, 0, none, ⟨0, 0, 1⟩⟩
      ⟨1, 5, 400, 3, 3⟩ [] rfl (by decide) rfl)
  have happ := failed_handler_retry_policy 1000 50
    ⟨[], true, 1, some ⟨1, 5, 400, 3, 3⟩, ⟨0, 0, 1⟩⟩ t8
  exact ⟨t8, (happ.2.2.1 ⟨1, 5, 400, 3, 3⟩ 500 rfl (by decide)).1,
    (happ.2.2.1 ⟨1, 5, 400, 3, 3⟩ 500 rfl (by decide)).2.1⟩

/-! Queue ordering (C1) -/

/-- The queue is sorted by non-increasing priority. -/
def SortedDesc (q : List QueueItem) : Prop :=
  q.Pairwise fun a b => b.priority ≤ a.priority

theorem insertByPriority_cons_lt {x it : QueueItem} (xs : List QueueItem)
    (hx : x.priority < it.priority) :
    insertByPriority (x :: xs) it = it :: x :: xs := by
  simp [insertByPriority, List.findIdx_cons, hx]

theorem insertByPriority_cons_ge {x it : QueueItem} (xs : List QueueItem)
    (hx : ¬ x.priority < it.priority) :
    insertByPriority (x :: xs) it = x :: insertByPriority xs it := by
  simp [insertByPriority, List.findIdx_cons, hx]

/-- Characterization of the `add` insertion on a priority-sorted queue: the
new item lands after every pending item of priority greater than or equal
to its own (FIFO within its tier) and before every strictly lower-priority
item (strict priority-first across tiers). -/
theorem insertByPriority_sorted_eq (q : List QueueItem) (it : QueueItem)
    (h : SortedDesc q) :
    insertByPriority q it =
      q.takeWhile (fun x => decide (it.priority ≤ x.priority)) ++
        it :: q.dropWhile (fun x => decide (it.priority ≤ x.priority)) := by
  induction q with
  | nil => simp [insertByPriority]
  | cons x xs ih =>
    by_cases hx : x.priority < it.priority
    · rw [insertByPriority_cons_lt xs hx]
      have hpx : ¬ it.priority ≤ x.priority := not_le.2 hx
      simp [List.takeWhile_cons, List.dropWhile_cons, hpx]
    · rw [insertByPriority_cons_ge xs hx]
      have hpx : it.priority ≤ x.priority := not_lt.1 hx
      have hs : SortedDesc xs := (List.pairwise_cons.1 h).2
      simp [List.takeWhile_cons, List.dropWhile_cons, hpx, ih hs]

theorem sortedDesc_insertByPriority (q : List QueueItem) (it : QueueItem)
    (h : SortedDesc q) : SortedDesc (insertByPriority q it) := by
  induction q with
  | nil => simp [insertByPriority, SortedDesc]
  | cons x xs ih =>
    obtain ⟨hx1, hx2⟩ := List.pairwise_cons.1 h
    by_cases hx : x.priority < it.priority
    · rw [insertByPriority_cons_lt xs hx]
      refine List.pairwise_cons.2 ⟨?_, h⟩
      intro y hy
      rcases List.mem_cons.1 hy with rfl | hmem
      · exact le_of_lt hx
      · exact le_trans (hx1 y hmem) (le_of_lt hx)
    · rw [insertByPriority_cons_ge xs hx]
      refine List.pairwise_cons.2 ⟨?_, ih hx2⟩
      intro y hy
      rcases (mem_insertByPriority xs it y).1 hy with rfl | hmem
      · exact not_lt.1 hx
      · exact hx1 y hmem

/-- C1 (amended): ordering guarantees of the queue.  On a priority-sorted
queue, `add` inserts the new item after all pending items of greater or
equal priority and before all strictly lower-priority ones (priority-first
across tiers, FIFO within a tier), and keeps the queue sorted, so the
`shift` in `processQueue` always dequeues an item of maximal priority among
those inserted by `add`.  A retried item, however, is re-inserted by
`unshift` at the absolute front of the queue — ahead of every pending item,
including strictly higher-priority ones. -/
theorem queue_ordering_policy (q : List QueueItem) (it : QueueItem)
    (h : SortedDesc q) :
    (insertByPriority q it =
      q.takeWhile (fun x => decide (it.priority ≤ x.priority)) ++
        it :: q.dropWhile (fun x => decide (it.priority ≤ x.priority))) ∧
    SortedDesc (insertByPriority q it) ∧
    (∀ hd tl, q = hd :: tl → ∀ x ∈ tl, x.priority ≤ hd.priority) ∧
    (∀ (cap limit : Nat) (σ : QueueState) (it2 : QueueItem) (now : Nat),
      σ.inFlight = some it2 → it2.retries < it2.maxRetries →
      QueueStep cap limit σ
        { σ with activeProcesses := σ.activeProcesses - 1,
                 queue := retryItem it2 now :: σ.queue,
                 processing := false, inFlight := none }) := by
  refine ⟨insertByPriority_sorted_eq q it h, sortedDesc_insertByPriority q it h,
    ?_, ?_⟩
  · intro hd tl hq x hx
    subst hq
    exact (List.pairwise_cons.1 h).1 x hx
  · intro cap limit σ it2 now hf hr
    have hstep : QueueStep cap limit σ (settleFailure σ it2 now) :=
      QueueStep.fail σ it2 now hf
    rw [settleFailure, if_pos hr] at hstep
    exact hstep

/-- Witness for C1 (amended) on a concrete sorted queue: a fresh priority-5
item is inserted after the older priority-5 item and before the priority-1
item. -/
theorem queue_ordering_policy_witness :
    SortedDesc [⟨1, 10, 0, 0, 3⟩, ⟨2, 5, 1, 0, 3⟩, ⟨3, 1, 2, 0, 3⟩] ∧
    insertByPriority [⟨1, 10, 0, 0, 3⟩, ⟨2, 5, 1, 0, 3⟩, ⟨3, 1, 2, 0, 3⟩]
        ⟨4, 5, 9, 0, 3⟩ =
      ([⟨1, 10, 0, 0, 3⟩, ⟨2, 5, 1, 0, 3⟩, ⟨3, 1, 2, 0, 3⟩].takeWhile
          (fun x => decide ((⟨4, 5, 9, 0, 3⟩ : QueueItem).priority ≤ x.priority)) ++
        ⟨4, 5, 9, 0, 3⟩ ::
          [⟨1, 10, 0, 0, 3⟩, ⟨2, 5, 1, 0, 3⟩, ⟨3, 1, 2, 0, 3⟩].dropWhile
            (fun x => decide ((⟨4, 5, 9, 0, 3⟩ : QueueItem).priority ≤ x.priority))) := by
  constructor
  · simp [SortedDesc, List.pairwise_cons]
  · exact (queue_ordering_policy [⟨1, 10, 0, 0, 3⟩, ⟨2, 5, 1, 0, 3⟩, ⟨3, 1, 2, 0, 3⟩]
      ⟨4, 5, 9, 0, 3⟩ (by simp [SortedDesc, List.pairwise_cons])).1

/-- Counterexample to C1 as stated: a retried item does NOT re-enter at the
front of its own priority class — it is `unshift`ed ahead of a pending
strictly higher-priority item.  Concretely: a priority-1 item is added and
dequeued; while it is in flight a priority-10 item arrives; the handler
fails, and the retried priority-1 item is re-inserted at the absolute front.
At the resulting dequeue decision point both items are pending, and the next
`dequeue` step takes the strictly lower-priority retried item first. -/
theorem queue_ordering_counterexample :
    QueueReachable 1000 50
      ⟨[⟨1, 1, 300, 1, 3⟩, ⟨2, 10, 200, 0, 3⟩], false, 0, none, ⟨0, 0, 2⟩⟩ ∧
    (⟨1, 1, 300, 1, 3⟩ : QueueItem).priority <
      (⟨2, 10, 200, 0, 3⟩ : QueueItem).priority ∧
    QueueStep 1000 50
      ⟨[⟨1, 1, 300, 1, 3⟩, ⟨2, 10, 200, 0, 3⟩], false, 0, none, ⟨0, 0, 2⟩⟩
      ⟨[⟨2, 10, 200, 0, 3⟩], true, 1, some ⟨1, 1, 300, 1, 3⟩, ⟨0, 0, 2⟩⟩ := by
  have t1 : QueueReachable 1000 50 ⟨[⟨1, 1, 100, 0, 3⟩], false, 0, none, ⟨0, 0, 1⟩⟩ :=
    Relation.ReflTransGen.single (QueueStep.add initialQueueState 1 1 100)
  have t2 : QueueReachable 1000 50 ⟨[], true, 1, some ⟨1, 1, 100, 0, 3⟩, ⟨0, 0, 1⟩⟩ :=
    t1.tail (QueueStep.dequeue ⟨[⟨1, 1, 100, 0, 3⟩], false, 0, none, ⟨0, 0, 1⟩⟩
      ⟨1, 1, 100, 0, 3⟩ [] rfl (by decide) rfl)
  have t3 : QueueReachable 1000 50
      ⟨[⟨2, 10, 200, 0, 3⟩], true, 1, some ⟨1, 1, 100, 0, 3⟩, ⟨0, 0, 2⟩⟩ :=
    t2.tail (QueueStep.add ⟨[], true, 1, some ⟨1, 1, 100, 0, 3⟩, ⟨0, 0, 1⟩⟩ 2 10 200)
  have t4 : QueueReachable 1000 50
      ⟨[⟨1, 1, 300, 1, 3⟩, ⟨2, 10, 200, 0, 3⟩], false, 0, none, ⟨0, 0, 2⟩⟩ :=
    t3.tail (QueueStep.fail
      ⟨[⟨2, 10, 200, 0, 3⟩], true, 1, some ⟨1, 1, 100, 0, 3⟩, ⟨0, 0, 2⟩⟩
      ⟨1, 1, 100, 0, 3⟩ 300 rfl)
  refine ⟨t4, by decide, ?_⟩
  exact QueueStep.dequeue
    ⟨[⟨1, 1, 300, 1, 3⟩, ⟨2, 10, 200, 0, 3⟩], false, 0, none, ⟨0, 0, 2⟩⟩
    ⟨1, 1, 300, 1, 3⟩ [⟨2, 10, 200, 0, 3⟩] rfl (by decide) rfl

/-! Permission manager (`PermissionManager` in `src/lib/permissions.js`) -/

/-- `PermissionManager.hasPermission(jid, command)`: look up the user's
permission array (empty when absent) and test membership of the command or
of the wildcard marker.  There is no owner check in this function. -/
def hasPermission (perms : List (String × List String)) (jid command : String) :
    Bool :=
  let userPermissions := (mapGet perms jid).getD []
  userPermissions.contains command || userPermissions.contains "*"

/-- Counterexample to C4 as stated: with an empty permission store, the
owner identity itself is denied — `hasPermission` has no owner clause, so
the claimed "or id is the configured owner identity" disjunct fails (for
`id` equal to any configured owner string, here shown for the identity
`"owner@s.whatsapp.net"`). -/
theorem hasPermission_counterexample :
    hasPermission [] "owner@s.whatsapp.net" "ping" = false ∧
    ¬ (hasPermission [] "owner@s.whatsapp.net" "ping" = true ↔
        ("ping" ∈ ((mapGet ([] : List (String × List String))
            "owner@s.whatsapp.net").getD [] : List String) ∨
         "*" ∈ ((mapGet ([] : List (String × List String))
            "owner@s.whatsapp.net").getD [] : List String) ∨
         "owner@s.whatsapp.net" = "owner@s.whatsapp.net")) := by
  constructor
  · rfl
  · intro hiff
    have := hiff.2 (Or.inr (Or.inr rfl))
    simp [hasPermission, mapGet] at this

/-- C4 (amended): `hasPermission(id, cmd)` is true iff `cmd` is in `id`'s
stored permission set or the wildcard marker `*` is in that set.  The owner
identity receives no special treatment here: owner bypass lives in the
callers (`message.key.fromMe` short-circuits the check in
`MessageHandler.handle`, and `PluginLoader.checkPermissions` grants the
owner separately). -/
theorem hasPermission_iff (perms : List (String × List String))
    (jid command : String) :
    hasPermission perms jid command = true ↔
      (command ∈ ((mapGet perms jid).getD [] : List String) ∨
       "*" ∈ ((mapGet perms jid).getD [] : List String)) := by
  simp [hasPermission, List.contains, List.elem_iff]

/-! Plugin loader and command registry (`src/plugins/loader.js`) -/

/-- A command entry of a plugin module's `commands` array.  The opaque
`handler` and presentation fields are not modelled; `permission`,
`groupOnly` and `privateOnly` are the fields `checkPermissions` reads. -/
structure PluginCmd where
  name : String
  aliases : List String
  permission : Option String
  groupOnly : Bool
  privateOnly : Bool
deriving DecidableEq, Repr

/-- A plugin module: `name`/`version`/`description` may be absent (or
empty, which is falsy in JS), plus the `commands` array (absent = `[]`). -/
structure Plugin where
  name : Option String
  version : Option String
  description : Option String
  commands : List PluginCmd
deriving DecidableEq, Repr

/-- JS truthiness of an optional string field: present and non-empty. -/
def truthyStr : Option String → Bool
  | none => false
  | some s => !(s == "")

/-- `PluginLoader.validatePlugin`: `['name','version','description'].every(field => plugin[field])`. -/
def validatePlugin (p : Plugin) : Bool :=
  truthyStr p.name && truthyStr p.version && truthyStr p.description

/-- The value stored in the `commands` map:
`{...cmd, plugin: pluginName, handler: cmd.handler}` plus `isAlias` for
alias entries. -/
structure CommandDescriptor where
  cmd : PluginCmd
  plugin : String
  isAlias : Bool
deriving DecidableEq, Repr

/-- The registry state of a `PluginLoader`: the `plugins` and `commands` maps. -/
structure Registry where
  plugins : List (String × Plugin)
  commands : List (String × CommandDescriptor)
deriving DecidableEq, Repr

/-- JS `a || b` for an optional/possibly-empty string. -/
def jsOr (o : Option String) (dflt : String) : String :=
  match o with
  | none => dflt
  | some s => if s == "" then dflt else s

/-- The alias registration loop inside `loadPlugin`:
`cmd.aliases.forEach(alias => this.commands.set(alias, {...}))`. -/
def registerAliases (pluginName : String) (c : PluginCmd)
    (m : List (String × CommandDescriptor)) : List (String × CommandDescriptor) :=
  c.aliases.foldl (fun acc al => mapSet acc al ⟨c, pluginName, true⟩) m

/-- The command registration loop inside `loadPlugin`:
for each command, `commands.set(cmd.name, {...})` then its aliases. -/
def registerCommands (pluginName : String) (cmds : List PluginCmd)
    (m : List (String × CommandDescriptor)) : List (String × CommandDescriptor) :=
  cmds.foldl (fun acc c => registerAliases pluginName c
    (mapSet acc c.name ⟨c, pluginName, false⟩)) m

/-- `PluginLoader.loadPlugin` (state effect): reject invalid plugins before
touching any map, otherwise register the plugin under
`plugin.name || basename` and `Map.set` every command name and alias. -/
def loadPlugin (R : Registry) (p : Plugin) (basename : String) : Registry :=
  if validatePlugin p then
    let pluginName := jsOr p.name basename
    { plugins := mapSet R.plugins pluginName p,
      commands := registerCommands pluginName p.commands R.commands }
  else R

/-- `PluginLoader.getCommand`: a plain `Map.get` — exact, case-sensitive. -/
def getCommand (R : Registry) (name : String) : Option CommandDescriptor :=
  mapGet R.commands name

/-- C9: a plugin source lacking a (truthy) name, version, or description is
rejected by `validatePlugin` before any registration, leaving both registry
maps exactly as they were. -/
theorem invalid_plugin_rejected (R : Registry) (p : Plugin) (basename : String)
    (h : truthyStr p.name = false ∨ truthyStr p.version = false ∨
      truthyStr p.description = false) :
    loadPlugin R p basename = R := by
  have hval : validatePlugin p = false := by
    rcases h with h | h | h <;> simp [validatePlugin, h]
  simp [loadPlugin, hval]

/-- Witness for C9: a plugin with a name and version but an empty
description registers nothing on a non-trivial registry. -/
theorem invalid_plugin_rejected_witness :
    truthyStr (some "") = false ∧
    loadPlugin
        ⟨[("p0", ⟨some "p0", some "1.0.0", some "d", []⟩)],
         [("x", ⟨⟨"x", [], none, false, false⟩, "p0", false⟩)]⟩
        ⟨some "broken", some "1.0.0", some "", []⟩ "broken" =
      ⟨[("p0", ⟨some "p0", some "1.0.0", some "d", []⟩)],
       [("x", ⟨⟨"x", [], none, false, false⟩, "p0", false⟩)]⟩ :=
  ⟨rfl,
    invalid_plugin_rejected
      ⟨[("p0", ⟨some "p0", some "1.0.0", some "d", []⟩)],
       [("x", ⟨⟨"x", [], none, false, false⟩, "p0", false⟩)]⟩
      ⟨some "broken", some "1.0.0", some "", []⟩ "broken"
      (Or.inr (Or.inr rfl))⟩

/-- Counterexample to C5 as stated: loading a second plugin whose command
name `"x"` is already registered is NOT rejected — the second registration
silently replaces the first.  After loading `p1` the descriptor for `"x"`
belongs to `p1`; after also loading `p2` it belongs to `p2`. -/
theorem registry_no_duplicate_rejection_counterexample :
    (getCommand
        (loadPlugin ⟨[], []⟩
          ⟨some "p1", some "1.0.0", some "d1", [⟨"x", [], none, false, false⟩]⟩
          "p1file")
        "x").map (fun d => d.plugin) = some "p1" ∧
    (getCommand
        (loadPlugin
          (loadPlugin ⟨[], []⟩
            ⟨some "p1", some "1.0.0", some "d1", [⟨"x", [], none, false, false⟩]⟩
            "p1file")
          ⟨some "p2", some "2.0.0", some "d2", [⟨"x", [], none, false, false⟩]⟩
          "p2file")
        "x").map (fun d => d.plugin) = some "p2" ∧
    some "p2" ≠ some "p1" := by
  refine ⟨rfl, rfl, by decide⟩

/-! Association-map lemmas for the registry -/

theorem mapGet_mapSet {β : Type} (m : List (String × β)) (k : String) (v : β)
    (k' : String) :
    mapGet (mapSet m k v) k' = if k = k' then some v else mapGet m k' := by
  induction m with
  | nil =>
    by_cases h : k = k' <;> simp [mapSet, mapGet, h]
  | cons kv rest ih =>
    obtain ⟨k0, v0⟩ := kv
    by_cases h0 : k0 = k
    · subst h0
      by_cases h1 : k0 = k'
      · subst h1; simp [mapSet, mapGet]
      · simp [mapSet, mapGet, h1]
    · by_cases h1 : k0 = k'
      · subst h1
        have hne : ¬ k = k0 := fun h => h0 h.symm
        simp [mapSet, mapGet, h0, hne]
      · simp [mapSet, mapGet, h0, h1, ih]

theorem mem_keys_mapSet {β : Type} (m : List (String × β)) (k : String) (v : β)
    (a : String) :
    a ∈ (mapSet m k v).map Prod.fst ↔ a ∈ m.map Prod.fst ∨ a = k := by
  induction m with
  | nil => simp [mapSet]
  | cons kv rest ih =>
    obtain ⟨k0, v0⟩ := kv
    by_cases h0 : k0 = k
    · subst h0
      simp only [mapSet, beq_self_eq_true, if_pos]
      constructor
      · intro h; exact Or.inl h
      · intro h
        rcases h with h | rfl
        · exact h
        · simp
    · simp only [mapSet, beq_iff_eq, h0, if_neg, not_false_iff, List.map_cons,
        List.mem_cons, ih]
      tauto

theorem nodup_keys_mapSet {β : Type} (m : List (String × β)) (k : String) (v : β)
    (h : (m.map Prod.fst).Nodup) : ((mapSet m k v).map Prod.fst).Nodup := by
  induction m with
  | nil => simp [mapSet]
  | cons kv rest ih =>
    obtain ⟨k0, v0⟩ := kv
    simp only [List.map_cons, List.nodup_cons] at h
    by_cases h0 : k0 = k
    · subst h0
      simp only [mapSet, beq_self_eq_true, if_pos, List.map_cons, List.nodup_cons]
      exact h
    · simp only [mapSet, beq_iff_eq, h0, if_neg, not_false_iff, List.map_cons,
        List.nodup_cons]
      refine ⟨?_, ih h.2⟩
      intro hmem
      rcases (mem_keys_mapSet rest k v k0).1 hmem with hm | rfl
      · exact h.1 hm
      · exact h0 rfl

theorem mapGet_foldlSet_notMem {β : Type} (als : List String) (v : β)
    (m : List (String × β)) (k : String) (h : k ∉ als) :
    mapGet (als.foldl (fun acc al => mapSet acc al v) m) k = mapGet m k := by
  induction als generalizing m with
  | nil => rfl
  | cons a rest ih =>
    simp only [List.mem_cons, not_or] at h
    rw [List.foldl_cons, ih _ h.2, mapGet_mapSet]
    exact if_neg (fun hh => h.1 hh.symm)

theorem mapGet_foldlSet_mem {β : Type} (als : List String) (v : β)
    (m : List (String × β)) (k : String) (h : k ∈ als) :
    mapGet (als.foldl (fun acc al => mapSet acc al v) m) k = some v := by
  induction als generalizing m with
  | nil => cases h
  | cons a rest ih =>
    rw [List.foldl_cons]
    by_cases hr : k ∈ rest
    · exact ih _ hr
    · have ha : k = a := by
        rcases List.mem_cons.1 h with h1 | h1
        · exact h1
        · exact absurd h1 hr
      subst ha
      rw [mapGet_foldlSet_notMem _ _ _ _ hr, mapGet_mapSet]
      simp

theorem nodup_keys_foldlSet {β : Type} (als : List String) (v : β)
    (m : List (String × β)) (h : (m.map Prod.fst).Nodup) :
    ((als.foldl (fun acc al => mapSet acc al v) m).map Prod.fst).Nodup := by
  induction als generalizing m with
  | nil => exact h
  | cons a rest ih => exact ih _ (nodup_keys_mapSet m a v h)

/-- All map keys a plugin's command list registers: names and aliases. -/
def allCmdKeys (cmds : List PluginCmd) : List String :=
  cmds.flatMap fun c => c.name :: c.aliases

theorem mapGet_registerCommands_notMem (pluginName : String)
    (cmds : List PluginCmd) (m : List (String × CommandDescriptor)) (k : String)
    (h : k ∉ allCmdKeys cmds) :
    mapGet (registerCommands pluginName cmds m) k = mapGet m k := by
  induction cmds generalizing m with
  | nil => rfl
  | cons c rest ih =>
    simp only [allCmdKeys, List.flatMap_cons, List.mem_append, List.mem_cons,
      not_or] at h
    rw [registerCommands, List.foldl_cons]
    have h2 : k ∉ allCmdKeys rest := h.2
    rw [show (List.foldl (fun acc c => registerAliases pluginName c
        (mapSet acc c.name ⟨c, pluginName, false⟩)) (registerAliases pluginName c
        (mapSet m c.name ⟨c, pluginName, false⟩)) rest) = registerCommands
        pluginName rest (registerAliases pluginName c
        (mapSet m c.name ⟨c, pluginName, false⟩)) from rfl]
    rw [ih _ h2, registerAliases, mapGet_foldlSet_notMem _ _ _ _ h.1.2,
      mapGet_mapSet]
    exact if_neg (fun hh => h.1.1 hh.symm)

theorem nodup_keys_registerCommands (pluginName : String)
    (cmds : List PluginCmd) (m : List (String × CommandDescriptor))
    (h : (m.map Prod.fst).Nodup) :
    ((registerCommands pluginName cmds m).map Prod.fst).Nodup := by
  induction cmds generalizing m with
  | nil => exact h
  | cons c rest ih =>
    rw [registerCommands, List.foldl_cons]
    exact ih _ (nodup_keys_foldlSet _ _ _ (nodup_keys_mapSet _ _ _ h))

theorem mapGet_registerCommands_mem (pluginName : String)
    (cmds : List PluginCmd) (m : List (String × CommandDescriptor))
    (hnd : (allCmdKeys cmds).Nodup) :
    ∀ c ∈ cmds,
      mapGet (registerCommands pluginName cmds m) c.name =
        some ⟨c, pluginName, false⟩ ∧
      ∀ al ∈ c.aliases,
        mapGet (registerCommands pluginName cmds m) al =
          some ⟨c, pluginName, true⟩ := by
  induction cmds generalizing m with
  | nil => intro c hc; cases hc
  | cons c0 rest ih =>
    have hnd' : (c0.name :: (c0.aliases ++ allCmdKeys rest)).Nodup := by
      simpa [allCmdKeys, List.flatMap_cons] using hnd
    obtain ⟨hn1, hnd2⟩ := List.nodup_cons.1 hnd'
    have hn1a : c0.name ∉ c0.aliases := fun h => hn1 (List.mem_append.2 (Or.inl h))
    have hn1k : c0.name ∉ allCmdKeys rest :=
      fun h => hn1 (List.mem_append.2 (Or.inr h))
    obtain ⟨_, hndK, hdisj⟩ := List.nodup_append.1 hnd2
    have hstep : registerCommands pluginName (c0 :: rest) m =
        registerCommands pluginName rest
          (registerAliases pluginName c0
            (mapSet m c0.name ⟨c0, pluginName, false⟩)) := rfl
    intro c hc
    rcases List.mem_cons.1 hc with rfl | hmem
    · constructor
      · rw [hstep, mapGet_registerCommands_notMem _ _ _ _ hn1k, registerAliases,
          mapGet_foldlSet_notMem _ _ _ _ hn1a, mapGet_mapSet]
        simp
      · intro al hal
        have halK : al ∉ allCmdKeys rest := hdisj hal
        rw [hstep, mapGet_registerCommands_notMem _ _ _ _ halK, registerAliases,
          mapGet_foldlSet_mem _ _ _ _ hal]
    · rw [hstep]
      exact ih _ hndK c hmem

/-- C5 (amended): the registry is a map, so every registered name or alias
resolves to exactly one descriptor at any time (unique keys are preserved
by loading); but a second plugin registering an already-registered command
name or alias is NOT rejected — `Map.set` silently replaces the earlier
descriptor, so the latest registration wins, and keys the plugin does not
register keep their previous binding. -/
theorem registry_registration_policy (R : Registry) (p : Plugin) (b : String)
    (hval : validatePlugin p = true)
    (hnd : (allCmdKeys p.commands).Nodup)
    (hkeys : (R.commands.map Prod.fst).Nodup) :
    ((loadPlugin R p b).commands.map Prod.fst).Nodup ∧
    (∀ c ∈ p.commands,
      getCommand (loadPlugin R p b) c.name = some ⟨c, jsOr p.name b, false⟩ ∧
      ∀ al ∈ c.aliases,
        getCommand (loadPlugin R p b) al = some ⟨c, jsOr p.name b, true⟩) ∧
    (∀ k, k ∉ allCmdKeys p.commands →
      getCommand (loadPlugin R p b) k = getCommand R k) := by
  have hload : loadPlugin R p b =
      { plugins := mapSet R.plugins (jsOr p.name b) p,
        commands := registerCommands (jsOr p.name b) p.commands R.commands } := by
    simp [loadPlugin, hval]
  rw [hload]
  refine ⟨nodup_keys_registerCommands _ _ _ hkeys, ?_, ?_⟩
  · intro c hc
    exact mapGet_registerCommands_mem _ _ _ hnd c hc
  · intro k hk
    exact mapGet_registerCommands_notMem _ _ _ _ hk

/-- Witness for C5 (amended): loading a plugin with command `"x"` and alias
`"y"` over a registry already binding `"x"` replaces the `"x"` binding,
adds the alias binding, and keeps the key list duplicate-free. -/
theorem registry_registration_policy_witness :
    validatePlugin ⟨some "p2", some "2.0.0", some "d2",
        [⟨"x", ["y"], none, false, false⟩]⟩ = true ∧
    (allCmdKeys [⟨"x", ["y"], none, false, false⟩]).Nodup ∧
    ((⟨[("p1", ⟨some "p1", some "1.0.0", some "d1",
          [⟨"x", [], none, false, false⟩]⟩)],
        [("x", ⟨⟨"x", [], none, false, false⟩, "p1", false⟩)]⟩ :
        Registry).commands.map Prod.fst).Nodup ∧
    getCommand
        (loadPlugin
          ⟨[("p1", ⟨some "p1", some "1.0.0", some "d1",
              [⟨"x", [], none, false, false⟩]⟩)],
           [("x", ⟨⟨"x", [], none, false, false⟩, "p1", false⟩)]⟩
          ⟨some "p2", some "2.0.0", some "d2", [⟨"x", ["y"], none, false, false⟩]⟩
          "p2file")
        "x" =
      some ⟨⟨"x", ["y"], none, false, false⟩,
        jsOr (some "p2") "p2file", false⟩ := by
  refine ⟨by decide, by decide, by decide, ?_⟩
  exact ((registry_registration_policy
    ⟨[("p1", ⟨some "p1", some "1.0.0", some "d1",
        [⟨"x", [], none, false, false⟩]⟩)],
      [("x", ⟨⟨"x", [], none, false, false⟩, "p1", false⟩)]⟩
    ⟨some "p2", some "2.0.0", some "d2", [⟨"x", ["y"], none, false, false⟩]⟩
    "p2file" (by decide) (by decide) (by decide)).2.1
    ⟨"x", ["y"], none, false, false⟩ (by decide)).1

/-! Command dispatch (`PluginLoader.executeCommand`, `checkPermissions`, and
`MessageHandler.handleCommand` / `handleUnknownCommand`).

Replies sent back to the requester are tracked as an effect list; only the
occurrence and kind of each reply matters here, not its text. -/

/-- The relevant configuration values: `OWNER_NUMBER` and `SUDO_USERS`. -/
structure BotConfig where
  ownerNumber : String
  sudoUsers : List String
deriving DecidableEq, Repr

/-- A reply emitted by the dispatch path: the error reply sent by
`executeCommand`'s catch block, or the unknown-command reply (with its
similarity suggestions) sent by `handleUnknownCommand`. -/
inductive Reply where
  | errorMessage : Reply
  | unknown : String → Reply
deriving DecidableEq, Repr

/-- `PluginLoader.checkPermissions`: the owner always passes; a `sudo`
command requires membership in `SUDO_USERS`; `groupOnly`/`privateOnly`
restrict the chat scope; otherwise allowed. -/
def checkPermissions (cfg : BotConfig) (command : CommandDescriptor)
    (sender : String) (isGroup : Bool) : Bool :=
  if sender == cfg.ownerNumber then true
  else if command.cmd.permission == some "sudo" &&
      !(cfg.sudoUsers.contains sender) then false
  else if command.cmd.groupOnly && !isGroup then false
  else if command.cmd.privateOnly && isGroup then false
  else true

/-- `PluginLoader.executeCommand`: resolve the name (plain `Map.get`);
return `false` for an unknown name; return `false` silently when
`checkPermissions` denies; otherwise run the handler — `true` on success,
and on a handler error reply with the error message and return `false`.
`handlerOk` is the environment's choice of the opaque handler's outcome. -/
def executeCommand (cfg : BotConfig) (R : Registry) (commandName : String)
    (sender : String) (isGroup : Bool) (handlerOk : Bool) : Bool × List Reply :=
  match mapGet R.commands commandName with
  | none => (false, [])
  | some command =>
    if !(checkPermissions cfg command sender isGroup) then (false, [])
    else if handlerOk then (true, [])
    else (false, [Reply.errorMessage])

/-- `MessageHandler.handleCommand`: run `executeCommand`; whenever it
returns `false` the dispatcher treats the command as unknown and
`handleUnknownCommand` replies with the unknown-command message. -/
def handleCommand (cfg : BotConfig) (R : Registry) (commandName : String)
    (sender : String) (isGroup : Bool) (handlerOk : Bool) : List Reply :=
  let r := executeCommand cfg R commandName sender isGroup handlerOk
  if r.1 then r.2 else r.2 ++ [Reply.unknown commandName]

/-- Counterexample to C7 as stated: an authorization failure does NOT
terminate silently.  A registered group-only command invoked in private
chat by a non-owner fails `checkPermissions`; `executeCommand` returns
`false` without replying, but `handleCommand` then sends the
unknown-command reply — a response is produced for the requester. -/
theorem authz_failure_counterexample :
    checkPermissions ⟨"o@s", []⟩
        ⟨⟨"g", [], none, true, false⟩, "p1", false⟩ "u@s" false = false ∧
    executeCommand ⟨"o@s", []⟩
        ⟨[], [("g", ⟨⟨"g", [], none, true, false⟩, "p1", false⟩)]⟩
        "g" "u@s" false true = (false, []) ∧
    handleCommand ⟨"o@s", []⟩
        ⟨[], [("g", ⟨⟨"g", [], none, true, false⟩, "p1", false⟩)]⟩
        "g" "u@s" false true = [Reply.unknown "g"] ∧
    [Reply.unknown "g"] ≠ ([] : List Reply) := by
  refine ⟨rfl, rfl, rfl, by decide⟩

/-- C7 (amended): when a resolved command's authorization check fails,
`executeCommand` itself produces no reply and returns `false`, but the
dispatcher then treats the event exactly like an unknown command and sends
the unknown-command reply: the requester does get a response (the same one
an unregistered name gets), rather than a silent drop. -/
theorem authz_failure_reply (cfg : BotConfig) (R : Registry)
    (commandName sender : String) (isGroup handlerOk : Bool)
    (d : CommandDescriptor) (hres : mapGet R.commands commandName = some d)
    (hdeny : checkPermissions cfg d sender isGroup = false) :
    executeCommand cfg R commandName sender isGroup handlerOk = (false, []) ∧
    handleCommand cfg R commandName sender isGroup handlerOk =
      [Reply.unknown commandName] := by
  have hexec : executeCommand cfg R commandName sender isGroup handlerOk =
      (false, []) := by
    simp [executeCommand, hres, hdeny]
  exact ⟨hexec, by simp [handleCommand, hexec]⟩

/-- Witness for C7 (amended) at the concrete denied invocation of the
counterexample scenario. -/
theorem authz_failure_reply_witness :
    mapGet (⟨[], [("g", ⟨⟨"g", [], none, true, false⟩, "p1", false⟩)]⟩ :
        Registry).commands "g" =
      some ⟨⟨"g", [], none, true, false⟩, "p1", false⟩ ∧
    checkPermissions ⟨"o@s", []⟩
        ⟨⟨"g", [], none, true, false⟩, "p1", false⟩ "u@s" false = false ∧
    handleCommand ⟨"o@s", []⟩
        ⟨[], [("g", ⟨⟨"g", [], none, true, false⟩, "p1", false⟩)]⟩
        "g" "u@s" false true = [Reply.unknown "g"] :=
  ⟨rfl, rfl,
    (authz_failure_reply ⟨"o@s", []⟩
      ⟨[], [("g", ⟨⟨"g", [], none, true, false⟩, "p1", false⟩)]⟩
      "g" "u@s" false true ⟨⟨"g", [], none, true, false⟩, "p1", false⟩
      rfl rfl).2⟩

/-! Command parsing (`Utils.cleanText`, `Utils.parseCommand` in
`src/lib/utils.js`) -/

/-- Whitespace as matched by the `\s`-based regex in `cleanText` (the
characters relevant to message text). -/
def isJsWs (c : Char) : Bool :=
  c == ' ' || c == '\t' || c == '\n' || c == '\r'

/-- JS `String.prototype.trim` on character lists. -/
def trimChars (l : List Char) : List Char :=
  ((l.dropWhile isJsWs).reverse.dropWhile isJsWs).reverse

/-- The `replace(/\s+/g, ' ')` step of `cleanText`: every maximal run of
whitespace becomes a single space. -/
def collapseWs : List Char → List Char
  | [] => []
  | [c] => if isJsWs c then [' '] else [c]
  | c1 :: c2 :: rest =>
    if isJsWs c1 && isJsWs c2 then collapseWs (c2 :: rest)
    else (if isJsWs c1 then ' ' else c1) :: collapseWs (c2 :: rest)

/-- `Utils.cleanText`: trim, then collapse whitespace runs. -/
def cleanText (text : String) : String :=
  ⟨collapseWs (trimChars text.data)⟩

/-- JS `String.prototype.split(' ')` on character lists (never returns an
empty group list: splitting the empty string yields one empty group). -/
def splitOnSpace : List Char → List (List Char)
  | [] => [[]]
  | c :: rest =>
    match splitOnSpace rest with
    | [] => [[c]]
    | g :: gs => if c == ' ' then [] :: g :: gs else (c :: g) :: gs

/-- The object returned by `Utils.parseCommand`. -/
structure ParsedCommand where
  command : String
  args : List String
  fullArgs : String
  rawText : String
deriving DecidableEq, Repr

/-- `Utils.parseCommand(text, prefix)`: clean the text, require the prefix,
split the rest on single spaces, and lowercase the command token. -/
def parseCommand (text pfx : String) : Option ParsedCommand :=
  let clean := cleanText text
  if strStartsWith clean pfx then
    match splitOnSpace (clean.data.drop pfx.data.length) with
    | [] => none
    | cmd :: args =>
      some ⟨⟨cmd.map Char.toLower⟩, args.map (fun a => ⟨a⟩),
        ⟨List.intercalate [' '] args⟩, text⟩
  else none

theorem mapGet_eq_none_of_notMem {β : Type} (m : List (String × β)) (k : String)
    (h : k ∉ m.map Prod.fst) : mapGet m k = none := by
  induction m with
  | nil => rfl
  | cons kv rest ih =>
    obtain ⟨k0, v0⟩ := kv
    simp only [List.map_cons, List.mem_cons, not_or] at h
    simp only [mapGet, beq_iff_eq]
    rw [if_neg (fun hh => h.1 hh.symm)]
    exact ih h.2

/-- Counterexample to C8 as stated: registry lookup is NOT case-insensitive.
With the `ping` command registered, `getCommand "ping"` resolves but the
case variant `getCommand "PING"` returns none — the registry `Map.get` is
an exact, case-sensitive match (the lowercase variant only works because
`parseCommand` lowercases before the registry is consulted). -/
theorem case_insensitive_lookup_counterexample :
    getCommand
        (loadPlugin ⟨[], []⟩
          ⟨some "ping", some "1.0.0", some "MATDEV ping", [⟨"ping", [], none, false, false⟩]⟩
          "ping")
        "ping" = some ⟨⟨"ping", [], none, false, false⟩, "ping", false⟩ ∧
    getCommand
        (loadPlugin ⟨[], []⟩
          ⟨some "ping", some "1.0.0", some "MATDEV ping", [⟨"ping", [], none, false, false⟩]⟩
          "ping")
        "PING" = none ∧
    strToLower "PING" = "ping" := by
  refine ⟨rfl, rfl, by decide⟩

/-- C8 (amended): the registry lookup itself is an exact, case-sensitive
`Map.get` — any key not literally registered resolves to none — while
case-insensitivity of user-facing resolution is provided one level up:
`parseCommand` lowercases the command token before the registry is
consulted, so any case variant of a lowercase-registered name reaches the
registry as that name and resolves to its unique descriptor. -/
theorem registry_lookup_case_policy :
    (∀ (R : Registry) (v : String), v ∉ R.commands.map Prod.fst →
      getCommand R v = none) ∧
    (∀ (text pfx : String) (pc : ParsedCommand),
      parseCommand text pfx = some pc →
      ∃ raw : String, pc.command = strToLower raw) ∧
    (∀ (R : Registry) (v n : String) (d : CommandDescriptor),
      strToLower v = n → mapGet R.commands n = some d →
      getCommand R (strToLower v) = some d) := by
  refine ⟨?_, ?_, ?_⟩
  · intro R v h
    exact mapGet_eq_none_of_notMem _ _ h
  · intro text pfx pc h
    simp only [parseCommand] at h
    by_cases hs : strStartsWith (cleanText text) pfx
    · rw [if_pos hs] at h
      cases hsplit : splitOnSpace ((cleanText text).data.drop pfx.data.length) with
      | nil => rw [hsplit] at h; cases h
      | cons cmd args =>
        rw [hsplit] at h
        refine ⟨⟨cmd⟩, ?_⟩
        have := Option.some.inj h
        rw [← this]
        rfl
    · rw [if_neg hs] at h; cases h
  · intro R v n d hlow hget
    rw [getCommand, hlow, hget]

/-- Witness for C8 (amended): an unregistered key resolves to none on a
concrete registry; parsing `.PING hello` yields a lowercased command; and
the lowercased variant `PING` of the registered `ping` resolves to its
descriptor. -/
theorem registry_lookup_case_policy_witness :
    getCommand (⟨[], [("ping", ⟨⟨"ping", [], none, false, false⟩, "ping", false⟩)]⟩ :
        Registry) "zzz" = none ∧
    (∃ raw : String,
      (⟨"ping", ["hello"], "hello", ".PING hello"⟩ : ParsedCommand).command =
        strToLower raw) ∧
    getCommand (⟨[], [("ping", ⟨⟨"ping", [], none, false, false⟩, "ping", false⟩)]⟩ :
        Registry) (strToLower "PING") =
      some ⟨⟨"ping", [], none, false, false⟩, "ping", false⟩ :=
  ⟨registry_lookup_case_policy.1
      ⟨[], [("ping", ⟨⟨"ping", [], none, false, false⟩, "ping", false⟩)]⟩
      "zzz" (by decide),
    registry_lookup_case_policy.2.1 ".PING hello" "."
      ⟨"ping", ["hello"], "hello", ".PING hello"⟩ (by decide),
    registry_lookup_case_policy.2.2
      ⟨[], [("ping", ⟨⟨"ping", [], none, false, false⟩, "ping", false⟩)]⟩
      "PING" "ping" ⟨⟨"ping", [], none, false, false⟩, "ping", false⟩
      (by decide) (by decide)⟩

/-! Rate limiter (`Utils.createRateLimiter` in `src/lib/utils.js`).

The closure state is the `requests` map from keys `identifier_timestamp`
to timestamps.  `windowStart = now - windowMs` comparisons are translated
exactly into `Nat` arithmetic: `timestamp < windowStart` becomes
`timestamp + windowMs < now`, and `timestamp >= windowStart` becomes
`now <= timestamp + windowMs` (JS numbers here are integers). -/

/-- The map key built by the limiter: the template literal
`identifier_now`. -/
def rlKey (identifier : String) (now : Nat) : String :=
  identifier ++ "_" ++ toString now

/-- One invocation of the closure returned by `Utils.createRateLimiter`:
delete entries older than the window, count surviving entries whose key
starts with the identifier, reject at the cap, otherwise record the
admission under the key `identifier_now`. -/
def rateLimiterCall (maxRequests windowMs : Nat) (m : List (String × Nat))
    (identifier : String) (now : Nat) : Bool × List (String × Nat) :=
  let cleaned := m.filter fun e => !decide (e.2 + windowMs < now)
  let userRequests := (cleaned.filter fun e =>
    strStartsWith e.1 identifier && decide (now ≤ e.2 + windowMs)).length
  if maxRequests ≤ userRequests then (false, cleaned)
  else (true, mapSet cleaned (rlKey identifier now) now)

/-- A sequence of limiter invocations from a fresh closure, returning the
admission results in order together with the final map. -/
def runRateLimiter (maxRequests windowMs : Nat)
    (attempts : List (String × Nat)) : List Bool × List (String × Nat) :=
  attempts.foldl (fun acc a =>
    let r := rateLimiterCall maxRequests windowMs acc.2 a.1 a.2
    (acc.1 ++ [r.1], r.2)) ([], [])

/-- Counterexample to C6 as stated: three attempts by one identity in the
same millisecond, with `maxRequests = 2` and `windowMs = 100`, are ALL
admitted — the claim demands that only the first two be admitted.  The
second admission's key `a_5` collides with the first's and `Map.set`
overwrites it, so the third attempt sees only one recorded admission. -/
theorem rate_limiter_counterexample :
    (runRateLimiter 2 100 [("a", 5), ("a", 5), ("a", 5)]).1 =
      [true, true, true] ∧
    [true, true, true] ≠ [true, true, false] := by
  exact ⟨rfl, by decide⟩

/-! Injectivity of the decimal rendering used in limiter keys -/

/-- Decimal digits of `n`, most significant first, mirroring the output of
`Nat.toDigitsCore` at base 10. -/
def natDigitsM (n : Nat) : List Char :=
  if h : n / 10 = 0 then [Nat.digitChar (n % 10)]
  else natDigitsM (n / 10) ++ [Nat.digitChar (n % 10)]
termination_by n
decreasing_by
  exact Nat.div_lt_self (Nat.pos_of_ne_zero fun h0 => h (by simp [h0])) (by norm_num)

/-- Numeric value of a decimal digit character. -/
def charDigitVal (c : Char) : Nat := c.toNat - 48

theorem charDigitVal_digitChar (d : Nat) (h : d < 10) :
    charDigitVal (Nat.digitChar d) = d := by
  interval_cases d <;> rfl

theorem natDigitsM_value (n : Nat) :
    ∀ acc : Nat,
      List.foldl (fun a c => a * 10 + charDigitVal c) acc (natDigitsM n) =
        acc * 10 ^ (natDigitsM n).length + n := by
  induction n using Nat.strong_induction_on with
  | _ n ih =>
    intro acc
    rw [natDigitsM]
    by_cases h : n / 10 = 0
    · have hn : n < 10 := (Nat.div_eq_zero_iff (by norm_num)).1 h
      rw [dif_pos h]
      simp only [List.foldl_cons, List.foldl_nil, List.length_singleton, pow_one]
      rw [charDigitVal_digitChar (n % 10) (Nat.mod_lt _ (by norm_num)),
        Nat.mod_eq_of_lt hn]
    · have hpos : 0 < n := Nat.pos_of_ne_zero fun h0 => h (by simp [h0])
      have hlt : n / 10 < n := Nat.div_lt_self hpos (by norm_num)
      simp only [h, dite_false]
      rw [List.foldl_append]
      simp only [List.foldl_cons, List.foldl_nil]
      rw [ih (n / 10) hlt acc,
        charDigitVal_digitChar (n % 10) (Nat.mod_lt _ (by norm_num))]
      rw [List.length_append, List.length_singleton, pow_succ]
      have hprod : acc * (10 ^ (natDigitsM (n / 10)).length * 10) =
          acc * 10 ^ (natDigitsM (n / 10)).length * 10 := by ring
      rw [hprod]
      have hdm := Nat.div_add_mod n 10
      set B := acc * 10 ^ (natDigitsM (n / 10)).length with hB
      omega

theorem natDigitsM_inj {a b : Nat} (h : natDigitsM a = natDigitsM b) : a = b := by
  have va := natDigitsM_value a 0
  have vb := natDigitsM_value b 0
  rw [h] at va
  rw [va] at vb
  simpa using vb

theorem toDigitsCore_eq_natDigitsM (fuel : Nat) :
    ∀ (n : Nat) (ds : List Char), n < fuel →
      Nat.toDigitsCore 10 fuel n ds = natDigitsM n ++ ds := by
  induction fuel with
  | zero => intro n ds h; omega
  | succ fuel ih =>
    intro n ds h
    by_cases h0 : n / 10 = 0
    · rw [natDigitsM]
      simp [Nat.toDigitsCore, h0]
    · have hpos : 0 < n := Nat.pos_of_ne_zero fun hz => h0 (by simp [hz])
      have hlt : n / 10 < fuel :=
        lt_of_lt_of_le (Nat.div_lt_self hpos (by norm_num)) (Nat.lt_succ_iff.1 h)
      rw [natDigitsM]
      simp only [Nat.toDigitsCore, h0, if_neg, not_false_iff, dite_false]
      rw [ih (n / 10) _ hlt, List.append_assoc]
      rfl

theorem natRepr_eq (n : Nat) : Nat.repr n = (natDigitsM n).asString := by
  show (Nat.toDigits 10 n).asString = _
  rw [Nat.toDigits, toDigitsCore_eq_natDigitsM (n + 1) n [] (Nat.lt_succ_self n),
    List.append_nil]

theorem natRepr_inj {a b : Nat} (h : Nat.repr a = Nat.repr b) : a = b := by
  rw [natRepr_eq, natRepr_eq] at h
  exact natDigitsM_inj (congrArg String.data h)

theorem strExt {s t : String} (h : s.data = t.data) : s = t := by
  cases s
  cases t
  exact congrArg String.mk h

theorem rlKey_inj {identifier : String} {a b : Nat}
    (h : rlKey identifier a = rlKey identifier b) : a = b := by
  have hrepr : (Nat.repr a).data = (Nat.repr b).data := by
    simpa [rlKey] using congrArg String.data h
  exact natRepr_inj (strExt hrepr)

theorem strStartsWith_rlKey (identifier : String) (n : Nat) :
    strStartsWith (rlKey identifier n) identifier = true := by
  rw [strStartsWith]
  apply List.isPrefixOf_iff_prefix.2
  have hdata : (rlKey identifier n).data =
      identifier.data ++ ('_' :: (Nat.repr n).data) := by
    simp [rlKey]
    rfl
  rw [hdata]
  exact List.prefix_append _ _

theorem mapSet_append_of_notMem {β : Type} (m : List (String × β)) (k : String)
    (v : β) (h : k ∉ m.map Prod.fst) : mapSet m k v = m ++ [(k, v)] := by
  induction m with
  | nil => rfl
  | cons kv rest ih =>
    obtain ⟨k0, v0⟩ := kv
    simp only [List.map_cons, List.mem_cons, not_or] at h
    simp only [mapSet, beq_iff_eq]
    rw [if_neg (fun hh => h.1 hh.symm), ih h.2]
    rfl

/-- Recursive form of `runRateLimiter` starting from an arbitrary map. -/
def runFrom (maxRequests windowMs : Nat) :
    List (String × Nat) → List (String × Nat) → List Bool × List (String × Nat)
  | st, [] => ([], st)
  | st, a :: rest =>
    let r := rateLimiterCall maxRequests windowMs st a.1 a.2
    let res := runFrom maxRequests windowMs r.2 rest
    (r.1 :: res.1, res.2)

theorem runFrom_cons (maxRequests windowMs : Nat) (st : List (String × Nat))
    (a : String × Nat) (rest : List (String × Nat)) :
    runFrom maxRequests windowMs st (a :: rest) =
      ((rateLimiterCall maxRequests windowMs st a.1 a.2).1 ::
        (runFrom maxRequests windowMs
          (rateLimiterCall maxRequests windowMs st a.1 a.2).2 rest).1,
       (runFrom maxRequests windowMs
          (rateLimiterCall maxRequests windowMs st a.1 a.2).2 rest).2) := rfl

theorem foldl_eq_runFrom (maxRequests windowMs : Nat) :
    ∀ (attempts : List (String × Nat)) (res : List Bool)
      (st : List (String × Nat)),
      attempts.foldl (fun acc a =>
        let r := rateLimiterCall maxRequests windowMs acc.2 a.1 a.2
        (acc.1 ++ [r.1], r.2)) (res, st) =
      (res ++ (runFrom maxRequests windowMs st attempts).1,
       (runFrom maxRequests windowMs st attempts).2) := by
  intro attempts
  induction attempts with
  | nil => intro res st; simp [runFrom]
  | cons a rest ih =>
    intro res st
    rw [List.foldl_cons]
    simp only []
    rw [ih, runFrom_cons]
    simp

theorem runRateLimiter_eq (maxRequests windowMs : Nat)
    (attempts : List (String × Nat)) :
    runRateLimiter maxRequests windowMs attempts =
      runFrom maxRequests windowMs [] attempts := by
  rw [runRateLimiter, foldl_eq_runFrom]
  simp

theorem runFrom_spec (maxRequests windowMs : Nat) (identifier : String) :
    ∀ (ts adm : List Nat),
      adm.length ≤ maxRequests →
      ts.Pairwise (· < ·) →
      (∀ a ∈ adm, ∀ u ∈ ts, a < u) →
      (∀ a ∈ adm, ∀ u ∈ ts, u ≤ a + windowMs) →
      (∀ x ∈ ts, ∀ u ∈ ts, x ≤ u → u ≤ x + windowMs) →
      runFrom maxRequests windowMs (adm.map fun a => (rlKey identifier a, a))
          (ts.map fun u => (identifier, u)) =
        (List.replicate (min ts.length (maxRequests - adm.length)) true ++
          List.replicate (ts.length - (maxRequests - adm.length)) false,
         (adm ++ ts.take (maxRequests - adm.length)).map
           fun a => (rlKey identifier a, a)) := by
  intro ts
  induction ts with
  | nil =>
    intro adm _ _ _ _ _
    simp [runFrom]
  | cons t rest ih =>
    intro adm hlen hmono hord hwin hmut
    have hmemt : t ∈ t :: rest := List.mem_cons_self _ _
    have hclean : (adm.map fun a => (rlKey identifier a, a)).filter
        (fun e => !decide (e.2 + windowMs < t)) =
        adm.map fun a => (rlKey identifier a, a) := by
      apply List.filter_eq_self.2
      intro e he
      obtain ⟨a, ha, rfl⟩ := List.mem_map.1 he
      have h1 : ¬ (a + windowMs < t) := Nat.not_lt.2 (hwin a ha t hmemt)
      simp [h1]
    have hcount : ((adm.map fun a => (rlKey identifier a, a)).filter
        (fun e => strStartsWith e.1 identifier && decide (t ≤ e.2 + windowMs))) =
        adm.map fun a => (rlKey identifier a, a) := by
      apply List.filter_eq_self.2
      intro e he
      obtain ⟨a, ha, rfl⟩ := List.mem_map.1 he
      have h1 := strStartsWith_rlKey identifier a
      have h2 : t ≤ a + windowMs := hwin a ha t hmemt
      simp [h1, h2]
    have hcall : rateLimiterCall maxRequests windowMs
        (adm.map fun a => (rlKey identifier a, a)) identifier t =
        if maxRequests ≤ adm.length then
          (false, adm.map fun a => (rlKey identifier a, a))
        else
          (true, mapSet (adm.map fun a => (rlKey identifier a, a))
            (rlKey identifier t) t) := by
      rw [rateLimiterCall]
      simp only [hclean, hcount, List.length_map]
    have hmono' : rest.Pairwise (· < ·) := (List.pairwise_cons.1 hmono).2
    have hhead : ∀ u ∈ rest, t < u := (List.pairwise_cons.1 hmono).1
    have hmut' : ∀ x ∈ rest, ∀ u ∈ rest, x ≤ u → u ≤ x + windowMs :=
      fun x hx u hu hle =>
        hmut x (List.mem_cons_of_mem _ hx) u (List.mem_cons_of_mem _ hu) hle
    rw [List.map_cons, runFrom_cons]
    simp only []
    rw [hcall]
    by_cases hc : maxRequests ≤ adm.length
    · have hk : maxRequests - adm.length = 0 := Nat.sub_eq_zero_of_le hc
      rw [if_pos hc]
      simp only []
      have hord' : ∀ a ∈ adm, ∀ u ∈ rest, a < u :=
        fun a ha u hu => hord a ha u (List.mem_cons_of_mem _ hu)
      have hwin' : ∀ a ∈ adm, ∀ u ∈ rest, u ≤ a + windowMs :=
        fun a ha u hu => hwin a ha u (List.mem_cons_of_mem _ hu)
      rw [ih adm hlen hmono' hord' hwin' hmut']
      simp [hk, List.replicate_succ]
    · have hlt : adm.length < maxRequests := Nat.not_le.1 hc
      rw [if_neg hc]
      simp only []
      have hfresh : rlKey identifier t ∉
          ((adm.map fun a => (rlKey identifier a, a)).map Prod.fst) := by
        simp only [List.map_map, List.mem_map, Function.comp]
        rintro ⟨a, ha, heq⟩
        have haeq : a = t := rlKey_inj heq
        exact absurd (hord a ha t hmemt) (by rw [haeq]; exact lt_irrefl t)
      rw [mapSet_append_of_notMem _ _ _ hfresh]
      have hstate : (adm.map fun a => (rlKey identifier a, a)) ++
          [(rlKey identifier t, t)] =
          (adm ++ [t]).map fun a => (rlKey identifier a, a) := by
        simp
      rw [hstate]
      have hlen' : (adm ++ [t]).length ≤ maxRequests := by
        simp only [List.length_append, List.length_singleton]
        omega
      have hord' : ∀ a ∈ adm ++ [t], ∀ u ∈ rest, a < u := by
        intro a ha u hu
        rcases List.mem_append.1 ha with ha1 | ha1
        · exact lt_trans (hord a ha1 t hmemt) (hhead u hu)
        · rw [List.mem_singleton.1 ha1]
          exact hhead u hu
      have hwin' : ∀ a ∈ adm ++ [t], ∀ u ∈ rest, u ≤ a + windowMs := by
        intro a ha u hu
        rcases List.mem_append.1 ha with ha1 | ha1
        · exact hwin a ha1 u (List.mem_cons_of_mem _ hu)
        · rw [List.mem_singleton.1 ha1]
          exact hmut t hmemt u (List.mem_cons_of_mem _ hu)
            (le_of_lt (hhead u hu))
      rw [ih (adm ++ [t]) hlen' hmono' hord' hwin' hmut']
      have hk : maxRequests - adm.length =
          (maxRequests - (adm.length + 1)) + 1 := by omega
      refine Prod.ext ?_ ?_
      · simp only [List.length_cons, List.length_append, List.length_singleton,
          List.length_nil, Nat.zero_add, hk, Nat.succ_min_succ,
          List.replicate_succ, List.cons_append, Nat.succ_sub_succ]
      · simp only [List.length_append, List.length_singleton, List.length_nil,
          Nat.zero_add, hk, List.take_succ_cons, List.append_assoc,
          List.singleton_append, Nat.succ_sub_succ]

/-- C6 (amended): for a single identity whose attempts occur at pairwise
distinct (strictly increasing) millisecond timestamps, all within one
trailing window of each other, exactly the first `maxRequests` attempts are
admitted and the remainder rejected; and once more than `windowMs` has
elapsed since every admitted attempt, a further attempt is admitted again
(for a positive `maxRequests`).  The distinct-timestamp hypothesis is
forced by the counterexample: attempts sharing a millisecond share the map
key `identifier_now`, so `Map.set` overwrites the earlier admission and the
limiter undercounts. -/
theorem rate_limiter_policy (maxRequests windowMs : Nat) (identifier : String)
    (ts : List Nat)
    (hmono : ts.Pairwise (· < ·))
    (hwin : ∀ x ∈ ts, ∀ u ∈ ts, x ≤ u → u ≤ x + windowMs) :
    (runRateLimiter maxRequests windowMs
        (ts.map fun u => (identifier, u))).1 =
      List.replicate (min ts.length maxRequests) true ++
        List.replicate (ts.length - maxRequests) false ∧
    (∀ later : Nat, 0 < maxRequests → (∀ x ∈ ts, x + windowMs < later) →
      (rateLimiterCall maxRequests windowMs
        (runRateLimiter maxRequests windowMs
          (ts.map fun u => (identifier, u))).2 identifier later).1 = true) := by
  have hspec := runFrom_spec maxRequests windowMs identifier ts []
    (by simp) hmono (by simp) (by simp) hwin
  rw [runRateLimiter_eq]
  simp only [List.map_nil, List.nil_append, List.length_nil, Nat.sub_zero]
    at hspec
  constructor
  · rw [hspec]
  · intro later hmpos hlater
    rw [hspec]
    have hcleanNil : ((ts.take maxRequests).map
        (fun a => (rlKey identifier a, a))).filter
        (fun e => !decide (e.2 + windowMs < later)) = [] := by
      apply List.filter_eq_nil_iff.2
      intro e he
      obtain ⟨a, ha, rfl⟩ := List.mem_map.1 he
      have hl : a + windowMs < later := hlater a (List.mem_of_mem_take ha)
      simp [hl]
    have hres : rateLimiterCall maxRequests windowMs
        ((ts.take maxRequests).map fun a => (rlKey identifier a, a))
        identifier later =
        (true, mapSet [] (rlKey identifier later) later) := by
      rw [rateLimiterCall]
      simp only [hcleanNil, List.filter_nil, List.length_nil]
      rw [if_neg (by omega)]
    rw [hres]

/-- Witness for C6 (amended): identity `a`, `maxRequests = 2`,
`windowMs = 100`, attempts at 10, 20, 30 ms — the first two admitted, the
third rejected — and an attempt at 200 ms (past the window of all
admissions) admitted again. -/
theorem rate_limiter_policy_witness :
    ([10, 20, 30] : List Nat).Pairwise (· < ·) ∧
    (runRateLimiter 2 100
        (([10, 20, 30] : List Nat).map fun u => (("a" : String), u))).1 =
      List.replicate (min ([10, 20, 30] : List Nat).length 2) true ++
        List.replicate (([10, 20, 30] : List Nat).length - 2) false ∧
    (rateLimiterCall 2 100
        (runRateLimiter 2 100
          (([10, 20, 30] : List Nat).map fun u => (("a" : String), u))).2
        "a" 200).1 = true := by
  refine ⟨by decide, ?_, ?_⟩
  · exact (rate_limiter_policy 2 100 "a" [10, 20, 30] (by decide) (by decide)).1
  · exact (rate_limiter_policy 2 100 "a" [10, 20, 30] (by decide)
      (by decide)).2 200 (by decide) (by decide)
